import Mathlib

/-
Verification development for the write-durability testing harness.

The embedding models the on-disk file as a byte-addressed function
(File.data : Nat -> Nat, byte values below 256) together with the
authoritative length (File.size).  The two transaction simulators
(single-header policy in main.cpp / the WriteStrategy variant, and the
multi-slot versioned policy) are embedded as traces of simulator events;
a trace applied to a file yields the bytes the kernel page cache holds at
clean completion.  The two verifiers (verify.cpp for the multi-slot
layout, the single-header verifier) are embedded as pure functions on
File.  Machine u64 arithmetic is modelled as Nat with explicit reduction
modulo 2 ^ 64 at the spots where the C code can wrap (the byte-offset
computation and the file_size - PAGE_SIZE comparison of verify.cpp, and
the version + 1 pattern probe).
-/

namespace Durability

/-- PAGE_SIZE from mach/vm_param.h as used by every source file. -/
def PAGE_SIZE : Nat := 4096

/-- 2 ^ 64, the modulus of size_t arithmetic. -/
def U64 : Nat := 2 ^ 64

/-- std::numeric_limits of size_t, max(): the sentinel marker value. -/
def UMAX : Nat := 2 ^ 64 - 1

/-- Byte k (little endian) of the 64-bit value v. -/
def wordByte (v k : Nat) : Nat := v / 256 ^ k % 256

/-- The three byte patterns the writers produce: memset_pattern8 tiles an
8-byte value, memset_pattern16 tiles a pair of 8-byte values, and the
32-byte header_entry record { offset, index, version, marker } is written
once, untiled (rec4 is only ever used with length 32). -/
inductive Pattern where
  | p8 (v : Nat)
  | p16 (a b : Nat)
  | rec4 (a b c d : Nat)
deriving DecidableEq

/-- Byte k of a pattern buffer, little endian within each 8-byte field. -/
def Pattern.byte : Pattern → Nat → Nat
  | .p8 v, k => wordByte v (k % 8)
  | .p16 a b, k => if k % 16 < 8 then wordByte a (k % 16) else wordByte b (k % 16 - 8)
  | .rec4 a b c d, k =>
      if k % 32 < 8 then wordByte a (k % 32)
      else if k % 32 < 16 then wordByte b (k % 32 - 8)
      else if k % 32 < 24 then wordByte c (k % 32 - 16)
      else wordByte d (k % 32 - 24)

/-- The on-disk state: authoritative length (what fstat reports) and the
byte at each offset. -/
structure File where
  size : Nat
  data : Nat → Nat

/-- The freshly created, empty test file. -/
def emptyFile : File := ⟨0, fun _ => 0⟩

/-- The durability barriers selectable on the command line:
none, msync, fsync, fullfsync, fsyncparent. -/
inductive Barrier where
  | noneB
  | msyncB
  | fsyncB
  | fullfsyncB
  | fsyncParentB
deriving DecidableEq

/-- One step of the simulator as it reaches the write path:
extend (ftruncate), a barrier-list application, or a write of a pattern
buffer of the given length at the given byte offset. -/
inductive SimEvent where
  | extendE (newSize : Nat)
  | syncE (bs : List Barrier)
  | writeE (off len : Nat) (pat : Pattern)
deriving DecidableEq

/-- WriteStrategy::extend - ftruncate to the new length; bytes gained by
growth read as zero. -/
def extendFile (f : File) (n : Nat) : File :=
  ⟨n, fun b => if b < min f.size n then f.data b else 0⟩

/-- The byte function after a pattern write of len bytes at offset off. -/
def writeData (off len : Nat) (p : Pattern) (d : Nat → Nat) : Nat → Nat :=
  fun b => if off ≤ b ∧ b < off + len then p.byte (b - off) else d b

/-- Effect of one simulator event on the file bytes.  Barriers do not
change the (uncrashed) byte contents. -/
def applyEvent (f : File) : SimEvent → File
  | .extendE n => extendFile f n
  | .syncE _ => f
  | .writeE off len p => ⟨f.size, writeData off len p f.data⟩

/-- The file produced by running a trace of simulator events. -/
def applyTrace (f : File) (tr : List SimEvent) : File :=
  tr.foldl applyEvent f

/-- Body-page loop of the single-header policy: for j = 1 .. t the page
at byte offset (pc - j) * PAGE_SIZE is overwritten with pattern8 j
(events listed in the program order, j increasing). -/
def singleBody (pc : Nat) : Nat → List SimEvent
  | 0 => []
  | t + 1 => singleBody pc t ++ [.writeE ((pc - (t + 1)) * PAGE_SIZE) PAGE_SIZE (.p8 (t + 1))]

/-- Transaction i of the monotonic single-header policy: extend to
(10 + 10 i) pages, apply the extend-barrier list, write body pages
pc-1 .. 1 (page pc - j gets pattern8 j for j = 1 .. pc - 1), apply the
write-barrier list, write page 0 with pattern8 of the file size in
bytes, apply the write-barrier list again. -/
def singleTrace (ebs wbs : List Barrier) (i : Nat) : List SimEvent :=
  [.extendE ((10 + 10 * i) * PAGE_SIZE), .syncE ebs]
    ++ singleBody (10 + 10 * i) (10 + 10 * i - 1)
    ++ [.syncE wbs, .writeE 0 PAGE_SIZE (.p8 ((10 + 10 * i) * PAGE_SIZE)), .syncE wbs]

/-- Inner write j of a multi-slot growth step: data page for slot
j % 16 at version j / 16 (pattern16 tiling of the pair), a write-barrier
application, then the 32-byte header record at offset (j % 16) * 32 with
{ base, index, version, sentinel }, and a second barrier application. -/
def multiInner (wbs : List Barrier) (base : Nat) (j : Nat) : List SimEvent :=
  [.writeE (base + j % 16 * PAGE_SIZE) PAGE_SIZE (.p16 (j % 16) (j / 16)),
   .syncE wbs,
   .writeE (j % 16 * 32) 32 (.rec4 base (j % 16) (j / 16) UMAX),
   .syncE wbs]

/-- The 128 inner writes of one growth step, in program order j = 0 .. n-1. -/
def multiLoop (wbs : List Barrier) (base : Nat) : Nat → List SimEvent
  | 0 => []
  | j + 1 => multiLoop wbs base j ++ multiInner wbs base j

/-- The sixteen inner writes with a common version v (j = 16 v .. 16 v + t - 1),
used to decompose multiLoop into version blocks. -/
def innerBlock (wbs : List Barrier) (base v : Nat) : Nat → List SimEvent
  | 0 => []
  | t + 1 => innerBlock wbs base v t ++ multiInner wbs base (16 * v + t)

/-- Growth step i of the multi-slot versioned policy: extend to
16 * (i + 1) + 1 pages, apply the extend-barrier list, then 16 * 8
paired data/header writes. -/
def multiTrace (ebs wbs : List Barrier) (i : Nat) : List SimEvent :=
  [.extendE ((16 * (i + 1) + 1) * PAGE_SIZE), .syncE ebs]
    ++ multiLoop wbs ((16 * (i + 1) + 1 - 16) * PAGE_SIZE) 128

/-- Trace of the first n transactions of the single-header run. -/
def runTraceSingle (ebs wbs : List Barrier) : Nat → List SimEvent
  | 0 => []
  | n + 1 => runTraceSingle ebs wbs n ++ singleTrace ebs wbs n

/-- Trace of the first n growth steps of the multi-slot run. -/
def runTraceMulti (ebs wbs : List Barrier) : Nat → List SimEvent
  | 0 => []
  | n + 1 => runTraceMulti ebs wbs n ++ multiTrace ebs wbs n

/-- File contents after n completed single-header transactions. -/
def singleRunFile (ebs wbs : List Barrier) (n : Nat) : File :=
  applyTrace emptyFile (runTraceSingle ebs wbs n)

/-- File contents after n completed multi-slot growth steps. -/
def multiRunFile (ebs wbs : List Barrier) (n : Nat) : File :=
  applyTrace emptyFile (runTraceMulti ebs wbs n)

/-- A 64-bit little-endian load, as the verifiers do through the mapping. -/
def readWord (d : Nat → Nat) (off : Nat) : Nat :=
  d off + 256 * (d (off + 1) + 256 * (d (off + 2) + 256 * (d (off + 3) +
    256 * (d (off + 4) + 256 * (d (off + 5) + 256 * (d (off + 6) + 256 * d (off + 7)))))))

/-- memcmp of len file bytes at offset off against a pattern buffer. -/
def regionMatches (d : Nat → Nat) (off : Nat) (p : Pattern) (len : Nat) : Bool :=
  (List.range len).all fun k => d (off + k) == p.byte k

/-- header_entry field offset of slot i, as verify.cpp reads it. -/
def slotOffset (f : File) (i : Nat) : Nat := readWord f.data (32 * i)

/-- header_entry field index of slot i. -/
def slotIndex (f : File) (i : Nat) : Nat := readWord f.data (32 * i + 8)

/-- header_entry field version of slot i. -/
def slotVersion (f : File) (i : Nat) : Nat := readWord f.data (32 * i + 16)

/-- header_entry field marker of slot i. -/
def slotMarker (f : File) (i : Nat) : Nat := readWord f.data (32 * i + 24)

/-- byte_offset = header->offset + header->index * PAGE_SIZE in u64. -/
def slotByteOffset (f : File) (i : Nat) : Nat :=
  (slotOffset f i + slotIndex f i * PAGE_SIZE) % U64

/-- Classification of one header slot by the multi-slot verifier. -/
inductive SlotClass where
  | skipped
  | hardCorrupt
  | consistent
  | inflight
  | mismatch
deriving DecidableEq

/-- verify.cpp, per-slot: absent sentinel marker skips the slot; a byte
offset beyond file_size - PAGE_SIZE (u64 subtraction) is hard corruption;
an exact match of the data page against the header pair is consistent; a
match against version + 1 (u64 increment) is the benign in-flight state;
anything else is a mismatch. -/
def slotClass (f : File) (i : Nat) : SlotClass :=
  if slotMarker f i ≠ UMAX then .skipped
  else if slotByteOffset f i > (f.size + (U64 - PAGE_SIZE)) % U64 then .hardCorrupt
  else if regionMatches f.data (slotByteOffset f i)
      (.p16 (slotIndex f i) (slotVersion f i)) PAGE_SIZE then .consistent
  else if regionMatches f.data (slotByteOffset f i)
      (.p16 (slotIndex f i) ((slotVersion f i + 1) % U64)) PAGE_SIZE then .inflight
  else .mismatch

/-- The two classifications that clear the success flag in verify.cpp. -/
def slotFails : SlotClass → Bool
  | .hardCorrupt => true
  | .mismatch => true
  | _ => false

/-- Overall verdict of verify.cpp: success stays true iff no slot was
classified hard-corrupt or mismatch. -/
def verifyMultiSuccess (f : File) : Bool :=
  (List.range 16).all fun i => !slotFails (slotClass f i)

/-- Process exit status of verify.cpp: the code executes return success,
so full consistency exits 1 and a failed verdict exits 0. -/
def verifyMultiExit (f : File) : Nat :=
  if verifyMultiSuccess f then 1 else 0

/-- Header classification of the single-header verifier. -/
inductive HeaderClass where
  | exactMatch
  | corruptFuture
  | corruptEmpty
  | benignLag
deriving DecidableEq

/-- file_size_from_header, the claimed size read from page 0. -/
def claimedSize (f : File) : Nat := readWord f.data 0

/-- page_count_from_header = claimed size / PAGE_SIZE. -/
def claimedPageCount (f : File) : Nat := claimedSize f / PAGE_SIZE

/-- Single-header verifier, header step: page 0 matching pattern8 of the
actual size is an exact match; otherwise a claimed size above the actual
size or below PAGE_SIZE is hard corruption, anything else is the benign
lagging-header state. -/
def headerClassOf (f : File) : HeaderClass :=
  if regionMatches f.data 0 (.p8 f.size) PAGE_SIZE then .exactMatch
  else if claimedSize f > f.size then .corruptFuture
  else if claimedSize f < PAGE_SIZE then .corruptEmpty
  else .benignLag

/-- Single-header verifier, body walk: for i = pch - 1 down to 1 the page
at index pch - i is compared against pattern8 i; the list collects the
page indices that mismatch (soft corruption), in the order the loop
visits them. -/
def bodyMismatches (f : File) : List Nat :=
  (List.range (claimedPageCount f - 1)).filterMap fun t =>
    if regionMatches f.data ((claimedPageCount f - (claimedPageCount f - 1 - t)) * PAGE_SIZE)
        (.p8 (claimedPageCount f - 1 - t)) PAGE_SIZE then none
    else some (claimedPageCount f - (claimedPageCount f - 1 - t))

/-- Result of the single-header verifier: header classification, whether
the run aborted before the body walk, the mismatching body pages, and the
process exit status (the code executes return success / return 1). -/
structure SingleResult where
  headerClass : HeaderClass
  fatal : Bool
  badPages : List Nat
  exitCode : Nat
deriving DecidableEq

/-- The single-header verifier: the two hard corruption states return 1
immediately; otherwise the body is walked and the program executes
return success, so a clean body exits 1 and a soft-corrupt body exits 0. -/
def verifySingle (f : File) : SingleResult :=
  match headerClassOf f with
  | .corruptFuture => ⟨.corruptFuture, true, [], 1⟩
  | .corruptEmpty => ⟨.corruptEmpty, true, [], 1⟩
  | hc => ⟨hc, false, bodyMismatches f, if bodyMismatches f = [] then 1 else 0⟩

/-- Tracked logical length after a trace (m_length of WriteStrategy). -/
def lenAfter (len : Nat) : List SimEvent → Nat
  | [] => len
  | .extendE n :: tr => lenAfter n tr
  | .syncE _ :: tr => lenAfter len tr
  | .writeE _ _ _ :: tr => lenAfter len tr

/-- Every extend call in the trace asks for at least the current tracked
length (the truncate-style call never shrinks the file as invoked). -/
def extendsOk (len : Nat) : List SimEvent → Bool
  | [] => true
  | .extendE n :: tr => decide (len ≤ n) && extendsOk n tr
  | .syncE _ :: tr => extendsOk len tr
  | .writeE _ _ _ :: tr => extendsOk len tr

/-- Every write in the trace satisfies offset + length <= tracked length,
the bounds assertion of MMapWriteStrategy::write. -/
def writesOk (len : Nat) : List SimEvent → Bool
  | [] => true
  | .extendE n :: tr => writesOk n tr
  | .syncE _ :: tr => writesOk len tr
  | .writeE off l _ :: tr => decide (off + l ≤ len) && writesOk len tr

/-- What a SyncStrategy needs of a writer: whether a mapping currently
exists (buffer() is non-null) and the tracked length. -/
structure WriterView where
  hasMapping : Bool
  length : Nat

/-- The kernel calls a barrier issues. -/
inductive Syscall where
  | msyncCall (len : Nat)
  | fsyncCall
  | fullfsyncCall
  | fsyncParentCall
deriving DecidableEq

/-- Syscalls issued by one barrier against a writer: MSyncStrategy::sync
returns without any call when there is no mapping or the tracked length
is zero; the others always issue their one call. -/
def syncCalls (w : WriterView) : Barrier → List Syscall
  | .noneB => []
  | .msyncB => if w.hasMapping then (if w.length = 0 then [] else [.msyncCall w.length]) else []
  | .fsyncB => [.fsyncCall]
  | .fullfsyncB => [.fullfsyncCall]
  | .fsyncParentB => [.fsyncParentCall]

/-- WriteStrategy::sync - the barrier list is applied by invoking each
member in the configured order, front to back. -/
def applySyncList (w : WriterView) : List Barrier → List Syscall
  | [] => []
  | b :: bs => syncCalls w b ++ applySyncList w bs

/-- Witness file for the slot-classification claims: one valid header
record for slot 0 at version 5 whose data page matches exactly. -/
def c2File : File :=
  ⟨2 * PAGE_SIZE, fun b =>
    if b < 32 then Pattern.byte (.rec4 PAGE_SIZE 0 5 UMAX) b
    else if PAGE_SIZE ≤ b ∧ b < 2 * PAGE_SIZE then Pattern.byte (.p16 0 5) (b - PAGE_SIZE)
    else 0⟩

/-- Witness file for the header-bounds claim: an actual size below
PAGE_SIZE, so the u64 subtraction wraps, and a header offset that still
exceeds the wrapped threshold. -/
def c6File : File :=
  ⟨100, fun b => if b < 32 then Pattern.byte (.rec4 UMAX 0 0 UMAX) b else 0⟩

/-- Witness file for the single-header classification claim: actual size
3 pages, header page claiming 2 pages (smaller, page-aligned). -/
def c4File : File :=
  ⟨3 * PAGE_SIZE, fun b => if b < PAGE_SIZE then Pattern.byte (.p8 (2 * PAGE_SIZE)) b else 0⟩

/-- A single-header file with a consistent header but a zeroed body page,
so the body walk records a mismatch. -/
def mismatchFile : File :=
  ⟨2 * PAGE_SIZE, fun b => if b < PAGE_SIZE then Pattern.byte (.p8 (2 * PAGE_SIZE)) b else 0⟩

/-! Generic facts about traces, byte loads and pattern buffers. -/

theorem applyTrace_append (f : File) (xs ys : List SimEvent) :
    applyTrace f (xs ++ ys) = applyTrace (applyTrace f xs) ys := by
  simp [applyTrace, List.foldl_append]

theorem writeData_in (off len : Nat) (p : Pattern) (d : Nat → Nat) (b : Nat)
    (h1 : off ≤ b) (h2 : b < off + len) : writeData off len p d b = p.byte (b - off) :=
  if_pos ⟨h1, h2⟩

theorem writeData_out (off len : Nat) (p : Pattern) (d : Nat → Nat) (b : Nat)
    (h : b < off ∨ off + len ≤ b) : writeData off len p d b = d b :=
  if_neg (by omega)

theorem regionMatches_iff (d : Nat → Nat) (off : Nat) (p : Pattern) (len : Nat) :
    regionMatches d off p len = true ↔ ∀ k, k < len → d (off + k) = p.byte k := by
  simp [regionMatches, List.all_eq_true, List.mem_range]

theorem regionMatches_false_at (d : Nat → Nat) (off : Nat) (p : Pattern) (len k : Nat)
    (hk : k < len) (hne : d (off + k) ≠ p.byte k) :
    regionMatches d off p len = false := by
  cases hq : regionMatches d off p len with
  | false => rfl
  | true => exact absurd ((regionMatches_iff _ _ _ _).mp hq k hk) hne

theorem readWord_eq (d : Nat → Nat) (off v : Nat) (hv : v < U64)
    (h : ∀ j, j < 8 → d (off + j) = wordByte v j) : readWord d off = v := by
  have h0 := h 0 (by omega)
  have h1 := h 1 (by omega)
  have h2 := h 2 (by omega)
  have h3 := h 3 (by omega)
  have h4 := h 4 (by omega)
  have h5 := h 5 (by omega)
  have h6 := h 6 (by omega)
  have h7 := h 7 (by omega)
  simp only [Nat.add_zero] at h0
  rw [readWord, h0, h1, h2, h3, h4, h5, h6, h7]
  have hv' : v < 18446744073709551616 := by
    have : U64 = 18446744073709551616 := by norm_num [U64]
    omega
  simp only [wordByte]
  norm_num
  omega

theorem rec4_byte0 (a b c d r : Nat) (h : r < 8) :
    Pattern.byte (.rec4 a b c d) r = wordByte a r := by
  have hr : r % 32 = r := by omega
  simp only [Pattern.byte, hr]
  rw [if_pos h]

theorem rec4_byte1 (a b c d r : Nat) (h1 : 8 ≤ r) (h2 : r < 16) :
    Pattern.byte (.rec4 a b c d) r = wordByte b (r - 8) := by
  have hr : r % 32 = r := by omega
  simp only [Pattern.byte, hr]
  rw [if_neg (by omega), if_pos h2]

theorem rec4_byte2 (a b c d r : Nat) (h1 : 16 ≤ r) (h2 : r < 24) :
    Pattern.byte (.rec4 a b c d) r = wordByte c (r - 16) := by
  have hr : r % 32 = r := by omega
  simp only [Pattern.byte, hr]
  rw [if_neg (by omega), if_neg (by omega), if_pos h2]

theorem rec4_byte3 (a b c d r : Nat) (h1 : 24 ≤ r) (h2 : r < 32) :
    Pattern.byte (.rec4 a b c d) r = wordByte d (r - 24) := by
  have hr : r % 32 = r := by omega
  simp only [Pattern.byte, hr]
  rw [if_neg (by omega), if_neg (by omega), if_neg (by omega)]

theorem p8_byte_small (v r : Nat) (h : r < 8) :
    Pattern.byte (.p8 v) r = wordByte v r := by
  have hr : r % 8 = r := by omega
  simp only [Pattern.byte, hr]

/-! Characterization of the multi-slot writer. -/

theorem applyTrace_multiInner_size (g : File) (wbs : List Barrier) (base j : Nat) :
    (applyTrace g (multiInner wbs base j)).size = g.size := rfl

theorem applyTrace_multiInner_data (g : File) (wbs : List Barrier) (base j : Nat) :
    (applyTrace g (multiInner wbs base j)).data =
      writeData (j % 16 * 32) 32 (.rec4 base (j % 16) (j / 16) UMAX)
        (writeData (base + j % 16 * PAGE_SIZE) PAGE_SIZE (.p16 (j % 16) (j / 16)) g.data) := rfl

theorem multiLoop_eq_block (wbs : List Barrier) (base v : Nat) :
    ∀ t, multiLoop wbs base (16 * v + t) = multiLoop wbs base (16 * v) ++ innerBlock wbs base v t := by
  intro t
  induction t with
  | zero => simp [innerBlock]
  | succ t ih =>
    rw [show 16 * v + (t + 1) = (16 * v + t) + 1 from rfl]
    rw [multiLoop, ih, innerBlock, List.append_assoc]

theorem multiLoop_size (wbs : List Barrier) (base : Nat) :
    ∀ j (g : File), (applyTrace g (multiLoop wbs base j)).size = g.size := by
  intro j
  induction j with
  | zero => intro g; rfl
  | succ j ih =>
    intro g
    rw [multiLoop, applyTrace_append, applyTrace_multiInner_size, ih]

theorem innerBlock_charact (wbs : List Barrier) (base v : Nat) (hbase : 512 ≤ base) :
    ∀ t, t ≤ 16 → ∀ g : File,
      (applyTrace g (innerBlock wbs base v t)).size = g.size ∧
      (∀ s r, s < t → r < 32 →
        (applyTrace g (innerBlock wbs base v t)).data (32 * s + r)
          = Pattern.byte (.rec4 base s v UMAX) r) ∧
      (∀ s r, s < t → r < PAGE_SIZE →
        (applyTrace g (innerBlock wbs base v t)).data (base + s * PAGE_SIZE + r)
          = Pattern.byte (.p16 s v) r) := by
  intro t
  induction t with
  | zero =>
    intro _ g
    exact ⟨rfl, fun s r hs _ => absurd hs (by omega), fun s r hs _ => absurd hs (by omega)⟩
  | succ t ih =>
    intro ht g
    obtain ⟨ihsize, ihhdr, ihpage⟩ := ih (by omega) g
    have hidx : (16 * v + t) % 16 = t := by omega
    have hver : (16 * v + t) / 16 = v := by omega
    have hp : PAGE_SIZE = 4096 := rfl
    refine ⟨?_, ?_, ?_⟩
    · rw [innerBlock, applyTrace_append, applyTrace_multiInner_size, ihsize]
    · intro s r hs hr
      rw [innerBlock, applyTrace_append, applyTrace_multiInner_data, hidx, hver]
      by_cases hst : s = t
      · subst hst
        rw [writeData_in _ _ _ _ _ (by omega) (by omega)]
        congr 1
        omega
      · have hs' : s < t := by omega
        rw [writeData_out _ _ _ _ _ (by omega)]
        rw [writeData_out _ _ _ _ _ (by rw [hp]; omega)]
        exact ihhdr s r hs' hr
    · intro s r hs hr
      rw [innerBlock, applyTrace_append, applyTrace_multiInner_data, hidx, hver]
      rw [hp] at hr ⊢
      by_cases hst : s = t
      · subst hst
        rw [writeData_out _ _ _ _ _ (by omega)]
        rw [writeData_in _ _ _ _ _ (by omega) (by omega)]
        congr 1
        omega
      · have hs' : s < t := by omega
        rw [writeData_out _ _ _ _ _ (by omega)]
        rw [writeData_out _ _ _ _ _ (by omega)]
        have := ihpage s r hs' (by rw [hp]; omega)
        rw [hp] at this
        exact this

theorem multiTrace_charact (ebs wbs : List Barrier) (i : Nat) (f : File) :
    (applyTrace f (multiTrace ebs wbs i)).size = (16 * (i + 1) + 1) * PAGE_SIZE ∧
    (∀ s r, s < 16 → r < 32 →
      (applyTrace f (multiTrace ebs wbs i)).data (32 * s + r)
        = Pattern.byte (.rec4 ((16 * i + 1) * PAGE_SIZE) s 7 UMAX) r) ∧
    (∀ s r, s < 16 → r < PAGE_SIZE →
      (applyTrace f (multiTrace ebs wbs i)).data ((16 * i + 1) * PAGE_SIZE + s * PAGE_SIZE + r)
        = Pattern.byte (.p16 s 7) r) := by
  have hb : 16 * (i + 1) + 1 - 16 = 16 * i + 1 := by omega
  have h128 : (128 : Nat) = 16 * 7 + 16 := by norm_num
  have hdec : multiTrace ebs wbs i
      = ([.extendE ((16 * (i + 1) + 1) * PAGE_SIZE), .syncE ebs]
          ++ multiLoop wbs ((16 * i + 1) * PAGE_SIZE) (16 * 7))
        ++ innerBlock wbs ((16 * i + 1) * PAGE_SIZE) 7 16 := by
    rw [multiTrace, hb, h128, multiLoop_eq_block, List.append_assoc]
  have hbase : 512 ≤ (16 * i + 1) * PAGE_SIZE := by
    show 512 ≤ (16 * i + 1) * 4096
    omega
  rw [hdec, applyTrace_append]
  obtain ⟨hsize, hhdr, hpage⟩ :=
    innerBlock_charact wbs ((16 * i + 1) * PAGE_SIZE) 7 hbase 16 (le_refl 16)
      (applyTrace f
        ([.extendE ((16 * (i + 1) + 1) * PAGE_SIZE), .syncE ebs]
          ++ multiLoop wbs ((16 * i + 1) * PAGE_SIZE) (16 * 7)))
  refine ⟨?_, hhdr, hpage⟩
  rw [hsize, applyTrace_append, multiLoop_size]
  rfl

/-! Multi-slot verifier lemmas. -/

theorem verifyMultiSuccess_iff (f : File) :
    verifyMultiSuccess f = true ↔ ∀ i, i < 16 → slotFails (slotClass f i) = false := by
  simp [verifyMultiSuccess, List.all_eq_true, List.mem_range]

theorem success_false_of_slotFails (f : File) (i : Nat) (hi : i < 16)
    (h : slotFails (slotClass f i) = true) : verifyMultiSuccess f = false := by
  cases hS : verifyMultiSuccess f
  · rfl
  · have := (verifyMultiSuccess_iff f).mp hS i hi
    rw [this] at h
    exact absurd h (by simp)

theorem slotClass_eq_of_valid (f : File) (i : Nat) (hm : slotMarker f i = UMAX)
    (hb : ¬ slotByteOffset f i > (f.size + (U64 - PAGE_SIZE)) % U64) :
    slotClass f i =
      (if regionMatches f.data (slotByteOffset f i)
          (.p16 (slotIndex f i) (slotVersion f i)) PAGE_SIZE then .consistent
       else if regionMatches f.data (slotByteOffset f i)
          (.p16 (slotIndex f i) ((slotVersion f i + 1) % U64)) PAGE_SIZE then .inflight
       else .mismatch) := by
  rw [slotClass, if_neg (by simp [hm]), if_neg hb]

theorem multiTrace_slot_fields (ebs wbs : List Barrier) (i : Nat) (f : File) (hi : i ≤ 1023)
    (s : Nat) (hs : s < 16) :
    slotOffset (applyTrace f (multiTrace ebs wbs i)) s = (16 * i + 1) * PAGE_SIZE ∧
    slotIndex (applyTrace f (multiTrace ebs wbs i)) s = s ∧
    slotVersion (applyTrace f (multiTrace ebs wbs i)) s = 7 ∧
    slotMarker (applyTrace f (multiTrace ebs wbs i)) s = UMAX := by
  obtain ⟨hsize, hhdr, hpage⟩ := multiTrace_charact ebs wbs i f
  have hU : U64 = 18446744073709551616 := by norm_num [U64]
  refine ⟨?_, ?_, ?_, ?_⟩
  · apply readWord_eq
    · show (16 * i + 1) * 4096 < U64
      rw [hU]; omega
    · intro j hj
      rw [hhdr s j hs (by omega), rec4_byte0 _ _ _ _ _ hj]
  · apply readWord_eq
    · rw [hU]; omega
    · intro j hj
      have e : 32 * s + 8 + j = 32 * s + (8 + j) := by omega
      rw [e, hhdr s (8 + j) hs (by omega), rec4_byte1 _ _ _ _ _ (by omega) (by omega)]
      have e2 : 8 + j - 8 = j := by omega
      rw [e2]
  · apply readWord_eq
    · rw [hU]; omega
    · intro j hj
      have e : 32 * s + 16 + j = 32 * s + (16 + j) := by omega
      rw [e, hhdr s (16 + j) hs (by omega), rec4_byte2 _ _ _ _ _ (by omega) (by omega)]
      have e2 : 16 + j - 16 = j := by omega
      rw [e2]
  · apply readWord_eq
    · show UMAX < U64
      norm_num [UMAX, U64]
    · intro j hj
      have e : 32 * s + 24 + j = 32 * s + (24 + j) := by omega
      rw [e, hhdr s (24 + j) hs (by omega), rec4_byte3 _ _ _ _ _ (by omega) (by omega)]
      have e2 : 24 + j - 24 = j := by omega
      rw [e2]

theorem multiTrace_verify (ebs wbs : List Barrier) (i : Nat) (f : File) (hi : i ≤ 1023) :
    verifyMultiSuccess (applyTrace f (multiTrace ebs wbs i)) = true ∧
    ∀ s, s < 16 →
      slotMarker (applyTrace f (multiTrace ebs wbs i)) s = UMAX ∧
      slotClass (applyTrace f (multiTrace ebs wbs i)) s = .consistent ∧
      regionMatches (applyTrace f (multiTrace ebs wbs i)).data
        (slotByteOffset (applyTrace f (multiTrace ebs wbs i)) s)
        (.p16 (slotIndex (applyTrace f (multiTrace ebs wbs i)) s)
              (slotVersion (applyTrace f (multiTrace ebs wbs i)) s)) PAGE_SIZE = true := by
  obtain ⟨hsize, hhdr, hpage⟩ := multiTrace_charact ebs wbs i f
  have hp : PAGE_SIZE = 4096 := rfl
  have hU : U64 = 18446744073709551616 := by norm_num [U64]
  have main : ∀ s, s < 16 →
      slotMarker (applyTrace f (multiTrace ebs wbs i)) s = UMAX ∧
      slotClass (applyTrace f (multiTrace ebs wbs i)) s = .consistent ∧
      regionMatches (applyTrace f (multiTrace ebs wbs i)).data
        (slotByteOffset (applyTrace f (multiTrace ebs wbs i)) s)
        (.p16 (slotIndex (applyTrace f (multiTrace ebs wbs i)) s)
              (slotVersion (applyTrace f (multiTrace ebs wbs i)) s)) PAGE_SIZE = true := by
    intro s hs
    obtain ⟨hoff, hidx, hver, hmark⟩ := multiTrace_slot_fields ebs wbs i f hi s hs
    have hbo : slotByteOffset (applyTrace f (multiTrace ebs wbs i)) s
        = (16 * i + 1) * PAGE_SIZE + s * PAGE_SIZE := by
      rw [slotByteOffset, hoff, hidx]
      apply Nat.mod_eq_of_lt
      rw [hp, hU]
      omega
    have hmatch : regionMatches (applyTrace f (multiTrace ebs wbs i)).data
        ((16 * i + 1) * PAGE_SIZE + s * PAGE_SIZE) (.p16 s 7) PAGE_SIZE = true := by
      rw [regionMatches_iff]
      intro k hk
      exact hpage s k hs hk
    have hnb : ¬ slotByteOffset (applyTrace f (multiTrace ebs wbs i)) s
        > ((applyTrace f (multiTrace ebs wbs i)).size + (U64 - PAGE_SIZE)) % U64 := by
      rw [hbo, hsize, hp, hU]
      omega
    refine ⟨hmark, ?_, ?_⟩
    · rw [slotClass_eq_of_valid _ _ hmark hnb, hbo, hidx, hver, if_pos hmatch]
    · rw [hbo, hidx, hver]
      exact hmatch
  refine ⟨?_, main⟩
  rw [verifyMultiSuccess_iff]
  intro s hs
  rw [(main s hs).2.1]
  rfl

theorem multiRunFile_succ (ebs wbs : List Barrier) (n : Nat) :
    multiRunFile ebs wbs (n + 1) = applyTrace (multiRunFile ebs wbs n) (multiTrace ebs wbs n) := by
  rw [multiRunFile, runTraceMulti, applyTrace_append]
  rfl

theorem singleRunFile_succ (ebs wbs : List Barrier) (n : Nat) :
    singleRunFile ebs wbs (n + 1) = applyTrace (singleRunFile ebs wbs n) (singleTrace ebs wbs n) := by
  rw [singleRunFile, runTraceSingle, applyTrace_append]
  rfl

/-! Characterization of the single-header writer. -/

theorem applyTrace_write_size (g : File) (off len : Nat) (p : Pattern) :
    (applyTrace g [.writeE off len p]).size = g.size := rfl

theorem applyTrace_write_data (g : File) (off len : Nat) (p : Pattern) :
    (applyTrace g [.writeE off len p]).data = writeData off len p g.data := rfl

theorem applyTrace_tail3_size (g : File) (wbs : List Barrier) (v : Nat) :
    (applyTrace g [.syncE wbs, .writeE 0 PAGE_SIZE (.p8 v), .syncE wbs]).size = g.size := rfl

theorem applyTrace_tail3_data (g : File) (wbs : List Barrier) (v : Nat) :
    (applyTrace g [.syncE wbs, .writeE 0 PAGE_SIZE (.p8 v), .syncE wbs]).data
      = writeData 0 PAGE_SIZE (.p8 v) g.data := rfl

theorem singleBody_charact (pc : Nat) :
    ∀ t, t < pc → ∀ g : File,
      (applyTrace g (singleBody pc t)).size = g.size ∧
      (∀ j r, 1 ≤ j → j ≤ t → r < PAGE_SIZE →
        (applyTrace g (singleBody pc t)).data ((pc - j) * PAGE_SIZE + r) = Pattern.byte (.p8 j) r) ∧
      (∀ b, b < (pc - t) * PAGE_SIZE → (applyTrace g (singleBody pc t)).data b = g.data b) := by
  intro t
  induction t with
  | zero =>
    intro _ g
    exact ⟨rfl, fun j r h1 h2 _ => absurd h2 (by omega), fun b _ => rfl⟩
  | succ t ih =>
    intro ht g
    obtain ⟨ihsize, ihw, ihun⟩ := ih (by omega) g
    refine ⟨?_, ?_, ?_⟩
    · rw [singleBody, applyTrace_append, applyTrace_write_size, ihsize]
    · intro j r h1 h2 hr
      rw [singleBody, applyTrace_append, applyTrace_write_data]
      by_cases hjt : j = t + 1
      · subst hjt
        rw [writeData_in _ _ _ _ _ (Nat.le_add_right _ _) (by simp only [PAGE_SIZE] at hr ⊢; omega)]
        have e : (pc - (t + 1)) * PAGE_SIZE + r - (pc - (t + 1)) * PAGE_SIZE = r := by omega
        rw [e]
      · have hj' : j ≤ t := by omega
        rw [writeData_out _ _ _ _ _ (by simp only [PAGE_SIZE] at hr ⊢; omega)]
        exact ihw j r h1 hj' hr
    · intro b hb
      rw [singleBody, applyTrace_append, applyTrace_write_data]
      rw [writeData_out _ _ _ _ _ (by simp only [PAGE_SIZE] at hb ⊢; omega)]
      exact ihun b (by simp only [PAGE_SIZE] at hb ⊢; omega)

theorem singleTrace_charact (ebs wbs : List Barrier) (i : Nat) (f : File) :
    (applyTrace f (singleTrace ebs wbs i)).size = (10 + 10 * i) * PAGE_SIZE ∧
    (∀ r, r < PAGE_SIZE →
      (applyTrace f (singleTrace ebs wbs i)).data r
        = Pattern.byte (.p8 ((10 + 10 * i) * PAGE_SIZE)) r) ∧
    (∀ p r, 1 ≤ p → p < 10 + 10 * i → r < PAGE_SIZE →
      (applyTrace f (singleTrace ebs wbs i)).data (p * PAGE_SIZE + r)
        = Pattern.byte (.p8 (10 + 10 * i - p)) r) := by
  have hdec : singleTrace ebs wbs i
      = ([.extendE ((10 + 10 * i) * PAGE_SIZE), .syncE ebs]
          ++ singleBody (10 + 10 * i) (10 + 10 * i - 1))
        ++ [.syncE wbs, .writeE 0 PAGE_SIZE (.p8 ((10 + 10 * i) * PAGE_SIZE)), .syncE wbs] := by
    rw [singleTrace, List.append_assoc]
  obtain ⟨bsize, bw, bun⟩ :=
    singleBody_charact (10 + 10 * i) (10 + 10 * i - 1) (by omega)
      (applyTrace f [.extendE ((10 + 10 * i) * PAGE_SIZE), .syncE ebs])
  rw [hdec, applyTrace_append, applyTrace_append]
  refine ⟨?_, ?_, ?_⟩
  · rw [applyTrace_tail3_size, bsize]
    rfl
  · intro r hr
    rw [applyTrace_tail3_data]
    rw [writeData_in _ _ _ _ _ (Nat.zero_le _) (by omega)]
    rw [Nat.sub_zero]
  · intro p r h1 h2 hr
    rw [applyTrace_tail3_data]
    rw [writeData_out _ _ _ _ _ (by simp only [PAGE_SIZE] at hr ⊢; omega)]
    have e : (10 + 10 * i) - ((10 + 10 * i) - p) = p := by omega
    have := bw ((10 + 10 * i) - p) r (by omega) (by omega) hr
    rw [e] at this
    exact this

theorem verifySingle_after_singleTrace (ebs wbs : List Barrier) (i : Nat) (f : File)
    (hi : i ≤ 1023) :
    verifySingle (applyTrace f (singleTrace ebs wbs i)) = ⟨.exactMatch, false, [], 1⟩ := by
  obtain ⟨hsize, hhdr, hbody⟩ := singleTrace_charact ebs wbs i f
  have hU : U64 = 18446744073709551616 := by norm_num [U64]
  have hmatch : regionMatches (applyTrace f (singleTrace ebs wbs i)).data 0
      (.p8 ((applyTrace f (singleTrace ebs wbs i)).size)) PAGE_SIZE = true := by
    rw [hsize, regionMatches_iff]
    intro k hk
    rw [Nat.zero_add]
    exact hhdr k hk
  have hclass : headerClassOf (applyTrace f (singleTrace ebs wbs i)) = .exactMatch := by
    rw [headerClassOf, if_pos hmatch]
  have hpc : claimedPageCount (applyTrace f (singleTrace ebs wbs i)) = 10 + 10 * i := by
    have hclaimed : claimedSize (applyTrace f (singleTrace ebs wbs i))
        = (10 + 10 * i) * PAGE_SIZE := by
      apply readWord_eq
      · show (10 + 10 * i) * 4096 < U64
        rw [hU]; omega
      · intro j hj
        have := hhdr j (by simp only [PAGE_SIZE]; omega)
        rw [p8_byte_small _ _ hj] at this
        simpa using this
    rw [claimedPageCount, hclaimed]
    show (10 + 10 * i) * 4096 / 4096 = 10 + 10 * i
    omega
  have hbm : bodyMismatches (applyTrace f (singleTrace ebs wbs i)) = [] := by
    rw [bodyMismatches]
    simp only [hpc]
    rw [List.filterMap_eq_nil_iff]
    intro t htmem
    have ht : t < 10 + 10 * i - 1 := List.mem_range.mp htmem
    rw [if_pos]
    rw [regionMatches_iff]
    intro k hk
    have e1 : (10 + 10 * i) - ((10 + 10 * i) - 1 - t) = t + 1 := by omega
    have e2 : (10 + 10 * i) - (t + 1) = (10 + 10 * i) - 1 - t := by omega
    rw [e1]
    have := hbody (t + 1) k (by omega) (by omega) hk
    rw [e2] at this
    exact this
  rw [verifySingle, hclass, hbm]
  simp

/-! Tracked-length accounting over traces. -/

theorem lenAfter_append (len : Nat) (xs ys : List SimEvent) :
    lenAfter len (xs ++ ys) = lenAfter (lenAfter len xs) ys := by
  induction xs generalizing len with
  | nil => rfl
  | cons e xs ih => cases e <;> simp [lenAfter, ih]

theorem extendsOk_append (len : Nat) (xs ys : List SimEvent) :
    extendsOk len (xs ++ ys) = (extendsOk len xs && extendsOk (lenAfter len xs) ys) := by
  induction xs generalizing len with
  | nil => simp [extendsOk, lenAfter]
  | cons e xs ih => cases e <;> simp [extendsOk, lenAfter, ih, Bool.and_assoc]

theorem writesOk_append (len : Nat) (xs ys : List SimEvent) :
    writesOk len (xs ++ ys) = (writesOk len xs && writesOk (lenAfter len xs) ys) := by
  induction xs generalizing len with
  | nil => simp [writesOk, lenAfter]
  | cons e xs ih => cases e <;> simp [writesOk, lenAfter, ih, Bool.and_assoc]

theorem singleBody_lenAfter (pc : Nat) : ∀ t len, lenAfter len (singleBody pc t) = len := by
  intro t
  induction t with
  | zero => intro len; rfl
  | succ t ih =>
    intro len
    rw [singleBody, lenAfter_append, ih]
    rfl

theorem singleBody_extendsOk (pc : Nat) : ∀ t len, extendsOk len (singleBody pc t) = true := by
  intro t
  induction t with
  | zero => intro len; rfl
  | succ t ih =>
    intro len
    rw [singleBody, extendsOk_append, ih, singleBody_lenAfter]
    rfl

theorem singleBody_writesOk (pc : Nat) :
    ∀ t len, t < pc → pc * PAGE_SIZE ≤ len → writesOk len (singleBody pc t) = true := by
  intro t
  induction t with
  | zero => intro len _ _; rfl
  | succ t ih =>
    intro len ht hlen
    rw [singleBody, writesOk_append, ih len (by omega) hlen, singleBody_lenAfter]
    simp [writesOk]
    simp only [PAGE_SIZE] at hlen ⊢
    omega

theorem multiInner_lenAfter (wbs : List Barrier) (base j len : Nat) :
    lenAfter len (multiInner wbs base j) = len := rfl

theorem multiLoop_lenAfter (wbs : List Barrier) (base : Nat) :
    ∀ j len, lenAfter len (multiLoop wbs base j) = len := by
  intro j
  induction j with
  | zero => intro len; rfl
  | succ j ih =>
    intro len
    rw [multiLoop, lenAfter_append, ih, multiInner_lenAfter]

theorem multiLoop_extendsOk (wbs : List Barrier) (base : Nat) :
    ∀ j len, extendsOk len (multiLoop wbs base j) = true := by
  intro j
  induction j with
  | zero => intro len; rfl
  | succ j ih =>
    intro len
    rw [multiLoop, extendsOk_append, ih, multiLoop_lenAfter]
    rfl

theorem multiInner_writesOk (wbs : List Barrier) (base j len : Nat)
    (h1 : base + 16 * PAGE_SIZE ≤ len) (h2 : 512 ≤ len) :
    writesOk len (multiInner wbs base j) = true := by
  simp [multiInner, writesOk]
  simp only [PAGE_SIZE] at h1 ⊢
  omega

theorem multiLoop_writesOk (wbs : List Barrier) (base : Nat) :
    ∀ j len, base + 16 * PAGE_SIZE ≤ len → 512 ≤ len →
      writesOk len (multiLoop wbs base j) = true := by
  intro j
  induction j with
  | zero => intro len _ _; rfl
  | succ j ih =>
    intro len h1 h2
    rw [multiLoop, writesOk_append, ih len h1 h2, multiLoop_lenAfter,
      multiInner_writesOk wbs base j len h1 h2]
    rfl

theorem singleTrace_lenAfter (ebs wbs : List Barrier) (i len : Nat) :
    lenAfter len (singleTrace ebs wbs i) = (10 + 10 * i) * PAGE_SIZE := by
  simp [singleTrace, lenAfter_append, singleBody_lenAfter, lenAfter]

theorem singleTrace_extendsOk (ebs wbs : List Barrier) (i len : Nat)
    (h : len ≤ (10 + 10 * i) * PAGE_SIZE) :
    extendsOk len (singleTrace ebs wbs i) = true := by
  simp [singleTrace, extendsOk_append, lenAfter_append, singleBody_extendsOk,
    singleBody_lenAfter, lenAfter, extendsOk, h]

theorem singleTrace_writesOk (ebs wbs : List Barrier) (i len : Nat) :
    writesOk len (singleTrace ebs wbs i) = true := by
  simp [singleTrace, writesOk_append, lenAfter_append, singleBody_lenAfter, lenAfter,
    writesOk]
  constructor
  · exact singleBody_writesOk _ _ _ (by omega) (le_refl _)
  · simp only [PAGE_SIZE]
    omega

theorem multiTrace_lenAfter (ebs wbs : List Barrier) (i len : Nat) :
    lenAfter len (multiTrace ebs wbs i) = (16 * (i + 1) + 1) * PAGE_SIZE := by
  rw [multiTrace, lenAfter_append, multiLoop_lenAfter]
  rfl

theorem multiTrace_extendsOk (ebs wbs : List Barrier) (i len : Nat)
    (h : len ≤ (16 * (i + 1) + 1) * PAGE_SIZE) :
    extendsOk len (multiTrace ebs wbs i) = true := by
  rw [multiTrace, extendsOk_append, multiLoop_extendsOk]
  simp [extendsOk, h]

theorem multiTrace_writesOk (ebs wbs : List Barrier) (i len : Nat) :
    writesOk len (multiTrace ebs wbs i) = true := by
  rw [multiTrace, writesOk_append]
  rw [show lenAfter len [.extendE ((16 * (i + 1) + 1) * PAGE_SIZE), .syncE ebs]
      = (16 * (i + 1) + 1) * PAGE_SIZE from rfl]
  rw [multiLoop_writesOk wbs _ 128 _ (by simp only [PAGE_SIZE]; omega)
      (by simp only [PAGE_SIZE]; omega)]
  rfl

theorem runSingle_props (ebs wbs : List Barrier) :
    ∀ n, lenAfter 0 (runTraceSingle ebs wbs n)
        = (if n = 0 then 0 else (10 + 10 * (n - 1)) * PAGE_SIZE) ∧
      extendsOk 0 (runTraceSingle ebs wbs n) = true ∧
      writesOk 0 (runTraceSingle ebs wbs n) = true := by
  intro n
  induction n with
  | zero => exact ⟨rfl, rfl, rfl⟩
  | succ n ih =>
    obtain ⟨ihlen, ihext, ihw⟩ := ih
    refine ⟨?_, ?_, ?_⟩
    · rw [runTraceSingle, lenAfter_append, ihlen, singleTrace_lenAfter]
      simp
    · rw [runTraceSingle, extendsOk_append, ihext, ihlen]
      rw [singleTrace_extendsOk]
      · rfl
      · by_cases hn : n = 0
        · simp [hn]
        · rw [if_neg hn]
          simp only [PAGE_SIZE]
          omega
    · rw [runTraceSingle, writesOk_append, ihw, singleTrace_writesOk]
      rfl

theorem runMulti_props (ebs wbs : List Barrier) :
    ∀ n, lenAfter 0 (runTraceMulti ebs wbs n)
        = (if n = 0 then 0 else (16 * n + 1) * PAGE_SIZE) ∧
      extendsOk 0 (runTraceMulti ebs wbs n) = true ∧
      writesOk 0 (runTraceMulti ebs wbs n) = true := by
  intro n
  induction n with
  | zero => exact ⟨rfl, rfl, rfl⟩
  | succ n ih =>
    obtain ⟨ihlen, ihext, ihw⟩ := ih
    refine ⟨?_, ?_, ?_⟩
    · rw [runTraceMulti, lenAfter_append, ihlen, multiTrace_lenAfter]
      have e : 16 * (n + 1) + 1 = 16 * n + 17 := by omega
      simp [e]
    · rw [runTraceMulti, extendsOk_append, ihext, ihlen]
      rw [multiTrace_extendsOk]
      · rfl
      · by_cases hn : n = 0
        · simp [hn]
        · rw [if_neg hn]
          simp only [PAGE_SIZE]
          omega
    · rw [runTraceMulti, writesOk_append, ihw, multiTrace_writesOk]
      rfl

theorem singleRunFile_size (ebs wbs : List Barrier) :
    ∀ n, (singleRunFile ebs wbs n).size
      = (if n = 0 then 0 else (10 + 10 * (n - 1)) * PAGE_SIZE) := by
  intro n
  cases n with
  | zero => rfl
  | succ n =>
    rw [singleRunFile_succ, (singleTrace_charact ebs wbs n (singleRunFile ebs wbs n)).1]
    simp

theorem multiRunFile_size (ebs wbs : List Barrier) :
    ∀ n, (multiRunFile ebs wbs n).size
      = (if n = 0 then 0 else (16 * n + 1) * PAGE_SIZE) := by
  intro n
  cases n with
  | zero => rfl
  | succ n =>
    rw [multiRunFile_succ, (multiTrace_charact ebs wbs n (multiRunFile ebs wbs n)).1]
    have e : 16 * (n + 1) + 1 = 16 * n + 17 := by omega
    simp [e]

/-! Barrier-list application lemmas. -/

theorem applySyncList_append (w : WriterView) (l1 l2 : List Barrier) :
    applySyncList w (l1 ++ l2) = applySyncList w l1 ++ applySyncList w l2 := by
  induction l1 with
  | nil => rfl
  | cons b bs ih => simp [applySyncList, ih]

/-! Claim theorems. -/

/-- C1: Round-trip consistency of writer and verifier: for every
barrier-list configuration (both write paths deposit identical bytes, so
the traces cover them), running the simulator through k complete growth
steps (1 <= k <= 1024, the program performs 1024) and then verifying
yields the full-success verdict.  For the multi-slot pair every one of
the 16 header records carries the sentinel marker, is classified
consistent, and its data page matches the tiled pair of the header
fields exactly; the single-header pair reports an exact header match, no
fatal classification and no mismatching body page. -/
theorem claim_C1_clean_shutdown_roundtrip (ebs wbs : List Barrier) (k : Nat)
    (hk : 1 ≤ k) (hk2 : k ≤ 1024) :
    verifyMultiSuccess (multiRunFile ebs wbs k) = true ∧
    (∀ s, s < 16 →
      slotMarker (multiRunFile ebs wbs k) s = UMAX ∧
      slotClass (multiRunFile ebs wbs k) s = .consistent ∧
      regionMatches (multiRunFile ebs wbs k).data
        (slotByteOffset (multiRunFile ebs wbs k) s)
        (.p16 (slotIndex (multiRunFile ebs wbs k) s)
              (slotVersion (multiRunFile ebs wbs k) s)) PAGE_SIZE = true) ∧
    verifySingle (singleRunFile ebs wbs k) = ⟨.exactMatch, false, [], 1⟩ := by
  obtain ⟨n, rfl⟩ : ∃ n, k = n + 1 := ⟨k - 1, by omega⟩
  rw [multiRunFile_succ, singleRunFile_succ]
  obtain ⟨hsucc, hslots⟩ := multiTrace_verify ebs wbs n (multiRunFile ebs wbs n) (by omega)
  exact ⟨hsucc, hslots,
    verifySingle_after_singleTrace ebs wbs n (singleRunFile ebs wbs n) (by omega)⟩

/-- C1 witness: one completed growth step / transaction. -/
theorem claim_C1_clean_shutdown_roundtrip_witness :
    verifyMultiSuccess (multiRunFile [] [] 1) = true ∧
    verifySingle (singleRunFile [] [] 1) = ⟨.exactMatch, false, [], 1⟩ := by
  obtain ⟨h1, _, h3⟩ := claim_C1_clean_shutdown_roundtrip [] [] 1 (by decide) (by decide)
  exact ⟨h1, h3⟩

/-- C2: For a header record carrying the sentinel marker with an
in-bounds byte offset, the verifier classifies the slot consistent
exactly when the data page matches the tiled pair of the header fields,
in-flight-interrupted exactly when it instead matches the pair at
version + 1 (u64 increment), and mismatch otherwise; a mismatch forces
the overall verdict to failure, and the non-failing classifications for
such a slot are exactly consistent and in-flight. -/
theorem claim_C2_slot_version_tolerance (f : File) (i : Nat) (hi : i < 16)
    (hm : slotMarker f i = UMAX)
    (hb : slotByteOffset f i ≤ (f.size + (U64 - PAGE_SIZE)) % U64) :
    (slotClass f i = .consistent ↔
      regionMatches f.data (slotByteOffset f i)
        (.p16 (slotIndex f i) (slotVersion f i)) PAGE_SIZE = true) ∧
    (slotClass f i = .inflight ↔
      (regionMatches f.data (slotByteOffset f i)
        (.p16 (slotIndex f i) (slotVersion f i)) PAGE_SIZE = false ∧
       regionMatches f.data (slotByteOffset f i)
        (.p16 (slotIndex f i) ((slotVersion f i + 1) % U64)) PAGE_SIZE = true)) ∧
    (slotClass f i = .mismatch ↔
      (regionMatches f.data (slotByteOffset f i)
        (.p16 (slotIndex f i) (slotVersion f i)) PAGE_SIZE = false ∧
       regionMatches f.data (slotByteOffset f i)
        (.p16 (slotIndex f i) ((slotVersion f i + 1) % U64)) PAGE_SIZE = false)) ∧
    (slotClass f i = .mismatch → verifyMultiSuccess f = false) ∧
    (slotFails (slotClass f i) = false ↔
      (slotClass f i = .consistent ∨ slotClass f i = .inflight)) := by
  have hb' : ¬ slotByteOffset f i > (f.size + (U64 - PAGE_SIZE)) % U64 := not_lt.mpr hb
  have hcls := slotClass_eq_of_valid f i hm hb'
  cases hA : regionMatches f.data (slotByteOffset f i)
      (.p16 (slotIndex f i) (slotVersion f i)) PAGE_SIZE with
  | false =>
    cases hB : regionMatches f.data (slotByteOffset f i)
        (.p16 (slotIndex f i) ((slotVersion f i + 1) % U64)) PAGE_SIZE with
    | false =>
      have hcls' : slotClass f i = .mismatch := by
        rw [hcls]
        simp [hA, hB]
      refine ⟨by simp [hcls', hA], by simp [hcls', hA], by simp [hcls', hA, hB], ?_,
        by simp [hcls', slotFails]⟩
      intro _
      exact success_false_of_slotFails f i hi (by rw [hcls']; rfl)
    | true =>
      have hcls' : slotClass f i = .inflight := by
        rw [hcls]
        simp [hA, hB]
      exact ⟨by simp [hcls', hA], by simp [hcls', hA, hB], by simp [hcls', hB],
        by simp [hcls'], by simp [hcls', slotFails]⟩
  | true =>
    have hcls' : slotClass f i = .consistent := by
      rw [hcls]
      simp [hA]
    exact ⟨by simp [hcls', hA], by simp [hcls', hA], by simp [hcls', hA],
      by simp [hcls'], by simp [hcls', slotFails]⟩

/-- C2 witness: a valid slot whose data page matches exactly. -/
theorem claim_C2_slot_version_tolerance_witness :
    slotClass c2File 0 = SlotClass.consistent := by
  have hidx : slotIndex c2File 0 = 0 := by decide
  have hver : slotVersion c2File 0 = 5 := by decide
  have hbo : slotByteOffset c2File 0 = PAGE_SIZE := by decide
  have hmatch : regionMatches c2File.data PAGE_SIZE (.p16 0 5) PAGE_SIZE = true := by
    rw [regionMatches_iff]
    intro k hk
    have hk4 : k < 4096 := hk
    show (if PAGE_SIZE + k < 32 then Pattern.byte (.rec4 PAGE_SIZE 0 5 UMAX) (PAGE_SIZE + k)
      else if PAGE_SIZE ≤ PAGE_SIZE + k ∧ PAGE_SIZE + k < 2 * PAGE_SIZE
        then Pattern.byte (.p16 0 5) (PAGE_SIZE + k - PAGE_SIZE) else 0)
      = Pattern.byte (.p16 0 5) k
    rw [if_neg (by simp only [PAGE_SIZE]; omega), if_pos (by constructor <;> omega)]
    have e : PAGE_SIZE + k - PAGE_SIZE = k := by omega
    rw [e]
  have h := claim_C2_slot_version_tolerance c2File 0 (by decide) (by decide) (by decide)
  apply h.1.mpr
  rw [hidx, hver, hbo]
  exact hmatch

/-- C3: The claim says the verifier exits 0 on a fully consistent file
and 1 on corruption or mismatch.  Both verifiers execute return success,
so a fully consistent file makes the process exit 1 and a mismatch-only
failure makes it exit 0 - the convention is inverted in the code.  This
theorem evaluates both verifiers at a fully consistent file and the
single-header verifier at a file with one mismatching body page. -/
theorem claim_C3_exit_code_inverted :
    verifyMultiSuccess (multiRunFile [] [] 1) = true ∧
    verifyMultiExit (multiRunFile [] [] 1) = 1 ∧
    (verifySingle (singleRunFile [] [] 1)).badPages = [] ∧
    (verifySingle (singleRunFile [] [] 1)).exitCode = 1 ∧
    (verifySingle mismatchFile).badPages ≠ [] ∧
    (verifySingle mismatchFile).exitCode = 0 := by
  have hm := multiTrace_verify [] [] 0 (multiRunFile [] [] 0) (by omega)
  have hmulti : verifyMultiSuccess (multiRunFile [] [] 1) = true := by
    rw [multiRunFile_succ]
    exact hm.1
  have hs := verifySingle_after_singleTrace [] [] 0 (singleRunFile [] [] 0) (by omega)
  have hsingle : verifySingle (singleRunFile [] [] 1) = ⟨.exactMatch, false, [], 1⟩ := by
    rw [singleRunFile_succ]
    exact hs
  have hmm : regionMatches mismatchFile.data 0 (.p8 mismatchFile.size) PAGE_SIZE = true := by
    rw [regionMatches_iff]
    intro k hk
    show (if 0 + k < PAGE_SIZE then Pattern.byte (.p8 (2 * PAGE_SIZE)) (0 + k) else 0)
      = Pattern.byte (.p8 mismatchFile.size) k
    rw [if_pos (by omega), Nat.zero_add]
    rfl
  have hclass : headerClassOf mismatchFile = .exactMatch := by
    rw [headerClassOf, if_pos hmm]
  have hpc : claimedPageCount mismatchFile = 2 := by decide
  have hrange : List.range (claimedPageCount mismatchFile - 1) = [0] := by
    rw [hpc]
    rfl
  have harg1 : (claimedPageCount mismatchFile
      - (claimedPageCount mismatchFile - 1 - 0)) * PAGE_SIZE = PAGE_SIZE := by
    simp [hpc]
  have harg2 : claimedPageCount mismatchFile - 1 - 0 = 1 := by simp [hpc]
  have hfalse : regionMatches mismatchFile.data
      ((claimedPageCount mismatchFile - (claimedPageCount mismatchFile - 1 - 0)) * PAGE_SIZE)
      (.p8 (claimedPageCount mismatchFile - 1 - 0)) PAGE_SIZE = false := by
    rw [harg1, harg2]
    exact regionMatches_false_at _ _ _ _ 0 (by simp only [PAGE_SIZE]; omega) (by decide)
  have hne : bodyMismatches mismatchFile ≠ [] := by
    intro hemp
    rw [bodyMismatches, hrange] at hemp
    have h0 := List.filterMap_eq_nil_iff.mp hemp 0 (by simp)
    simp only [hfalse] at h0
    simp at h0
  have hres : verifySingle mismatchFile
      = ⟨.exactMatch, false, bodyMismatches mismatchFile, 0⟩ := by
    simp only [verifySingle, hclass]
    rw [if_neg hne]
  refine ⟨hmulti, ?_, by rw [hsingle], by rw [hsingle], ?_, ?_⟩
  · rw [verifyMultiExit, if_pos hmulti]
  · simp only [hres]
    exact hne
  · simp only [hres]

/-- C4: When the claimed size on page 0 disagrees with the actual file
size (for machine sizes, below 2 ^ 64): a claimed size above the actual
size is hard corruption and immediately fatal; a claimed size below
PAGE_SIZE is hard corruption and immediately fatal (the first clause
taking precedence as in the code); a claimed size of at least PAGE_SIZE,
below the actual size and page-aligned is benign, after which the body
walk proceeds over the claimed page count. -/
theorem claim_C4_single_header_classification (f : File) (hsz : f.size < U64)
    (hne : claimedSize f ≠ f.size) :
    (claimedSize f > f.size → verifySingle f = ⟨.corruptFuture, true, [], 1⟩) ∧
    (claimedSize f < PAGE_SIZE →
      (verifySingle f).fatal = true ∧ (verifySingle f).badPages = [] ∧
      ((verifySingle f).headerClass = .corruptFuture ∨
       (verifySingle f).headerClass = .corruptEmpty)) ∧
    (PAGE_SIZE ≤ claimedSize f → claimedSize f < f.size → PAGE_SIZE ∣ claimedSize f →
      verifySingle f = ⟨.benignLag, false, bodyMismatches f,
        if bodyMismatches f = [] then 1 else 0⟩ ∧
      claimedPageCount f = claimedSize f / PAGE_SIZE) := by
  have hnm : regionMatches f.data 0 (.p8 f.size) PAGE_SIZE = false := by
    cases hq : regionMatches f.data 0 (.p8 f.size) PAGE_SIZE with
    | false => rfl
    | true =>
      exfalso
      apply hne
      show readWord f.data 0 = f.size
      apply readWord_eq f.data 0 f.size hsz
      intro j hj
      have := (regionMatches_iff _ _ _ _).mp hq j (by simp only [PAGE_SIZE]; omega)
      rw [this, p8_byte_small _ _ hj]
  refine ⟨?_, ?_, ?_⟩
  · intro hgt
    have hcl : headerClassOf f = .corruptFuture := by
      rw [headerClassOf, if_neg (by simp [hnm]), if_pos hgt]
    simp only [verifySingle, hcl]
  · intro hlt
    by_cases hgt : claimedSize f > f.size
    · have hcl : headerClassOf f = .corruptFuture := by
        rw [headerClassOf, if_neg (by simp [hnm]), if_pos hgt]
      simp [verifySingle, hcl]
    · have hcl : headerClassOf f = .corruptEmpty := by
        rw [headerClassOf, if_neg (by simp [hnm]), if_neg hgt, if_pos hlt]
      simp [verifySingle, hcl]
  · intro h1 h2 _
    have hcl : headerClassOf f = .benignLag := by
      rw [headerClassOf, if_neg (by simp [hnm]), if_neg (by omega), if_neg (by omega)]
    constructor
    · simp only [verifySingle, hcl]
    · rfl

/-- C4 witness: a file of 3 pages whose header claims 2 pages. -/
theorem claim_C4_single_header_classification_witness :
    verifySingle c4File = ⟨.benignLag, false, bodyMismatches c4File,
      if bodyMismatches c4File = [] then 1 else 0⟩ ∧
    claimedPageCount c4File = claimedSize c4File / PAGE_SIZE :=
  (claim_C4_single_header_classification c4File (by decide) (by decide)).2.2
    (by decide) (by decide) (by decide)

/-- C5 counterexample: the claim says page 0 is overwritten with the
total page count repeated as a pattern.  After the first completed
transaction (10 pages) the header word is the file size in bytes, 40960,
not the page count 10; the first header byte is 0, while the page-count
pattern would put 10 there. -/
theorem claim_C5_counterexample :
    claimedSize (singleRunFile [] [] 1) = 40960 ∧ (40960 : Nat) ≠ 10 ∧
    (singleRunFile [] [] 1).data 0 = 0 ∧ Pattern.byte (.p8 10) 0 = 10 := by
  refine ⟨by decide, by decide, by decide, by decide⟩

/-- C5 amended: on transaction i the simulator extends the file to
exactly (10 + 10 i) pages, applies the extend-barrier list, overwrites
every body page except page 0 with its page-local counter pattern (the
page at byte offset (pc - j) * PAGE_SIZE is filled with value j for
j = 1 .. pc - 1), applies the write-barrier list, then overwrites page 0
with the current total file size in bytes (page count times PAGE_SIZE)
repeated as a pattern, and applies the write-barrier list again. -/
theorem claim_C5_single_header_step (ebs wbs : List Barrier) (i : Nat) (f : File) :
    singleTrace ebs wbs i
      = [.extendE ((10 + 10 * i) * PAGE_SIZE), .syncE ebs]
          ++ singleBody (10 + 10 * i) (10 + 10 * i - 1)
          ++ [.syncE wbs, .writeE 0 PAGE_SIZE (.p8 ((10 + 10 * i) * PAGE_SIZE)), .syncE wbs] ∧
    (∀ t, t < 10 + 10 * i - 1 →
      singleBody (10 + 10 * i) (t + 1)
        = singleBody (10 + 10 * i) t
            ++ [.writeE ((10 + 10 * i - (t + 1)) * PAGE_SIZE) PAGE_SIZE (.p8 (t + 1))]) ∧
    (applyTrace f (singleTrace ebs wbs i)).size = (10 + 10 * i) * PAGE_SIZE ∧
    (∀ j r, 1 ≤ j → j ≤ 10 + 10 * i - 1 → r < PAGE_SIZE →
      (applyTrace f (singleTrace ebs wbs i)).data ((10 + 10 * i - j) * PAGE_SIZE + r)
        = Pattern.byte (.p8 j) r) ∧
    (∀ r, r < PAGE_SIZE →
      (applyTrace f (singleTrace ebs wbs i)).data r
        = Pattern.byte (.p8 ((10 + 10 * i) * PAGE_SIZE)) r) := by
  obtain ⟨hsize, hhdr, hbody⟩ := singleTrace_charact ebs wbs i f
  refine ⟨rfl, ?_, hsize, ?_, hhdr⟩
  · intro t _
    rfl
  · intro j r h1 h2 hr
    have := hbody ((10 + 10 * i) - j) r (by omega) (by omega) hr
    have e : (10 + 10 * i) - ((10 + 10 * i) - j) = j := by omega
    rw [e] at this
    exact this

/-- C5 witness: transaction 0 on the fresh file, page 9 and the size. -/
theorem claim_C5_single_header_step_witness :
    (applyTrace emptyFile (singleTrace [] [] 0)).data ((10 + 10 * 0 - 1) * PAGE_SIZE + 0)
      = Pattern.byte (.p8 1) 0 ∧
    (applyTrace emptyFile (singleTrace [] [] 0)).size = (10 + 10 * 0) * PAGE_SIZE := by
  have h := claim_C5_single_header_step [] [] 0 emptyFile
  exact ⟨h.2.2.2.1 1 0 (by decide) (by decide) (by decide), h.2.2.1⟩

/-- C6: A header record with the sentinel marker whose byte offset
exceeds actualFileSize - PAGE_SIZE, the subtraction taken over u64 (so
sizes below PAGE_SIZE wrap), is classified hard corruption and forces
the overall verdict to failure, for every machine file size. -/
theorem claim_C6_header_bounds (f : File) (i : Nat) (hi : i < 16) (hsz : f.size < U64)
    (hm : slotMarker f i = UMAX)
    (hb : slotByteOffset f i > (f.size + (U64 - PAGE_SIZE)) % U64) :
    slotClass f i = .hardCorrupt ∧ verifyMultiSuccess f = false := by
  have hcls : slotClass f i = .hardCorrupt := by
    rw [slotClass, if_neg (by simp [hm]), if_pos hb]
  exact ⟨hcls, success_false_of_slotFails f i hi (by rw [hcls]; rfl)⟩

/-- C6 witness: a 100-byte file (the u64 subtraction wraps) with a
sentinel-marked header whose offset field is the u64 maximum. -/
theorem claim_C6_header_bounds_witness :
    slotClass c6File 0 = SlotClass.hardCorrupt ∧ verifyMultiSuccess c6File = false :=
  claim_C6_header_bounds c6File 0 (by decide) (by decide) (by decide) (by decide)

/-- C7: A header record without the all-bits-set sentinel marker is
classified unwritten and skipped; the classification depends only on the
marker (no data-page comparison), skipped is a non-failing state, and a
skipped slot never by itself makes the overall verdict a failure: if
every other slot is non-failing the verdict is success. -/
theorem claim_C7_sentinel_gating (f : File) (i : Nat) (hi : i < 16)
    (hm : slotMarker f i ≠ UMAX) :
    slotClass f i = .skipped ∧
    slotFails SlotClass.skipped = false ∧
    (∀ g : File, slotMarker g i = slotMarker f i → slotClass g i = .skipped) ∧
    ((∀ j, j < 16 → j ≠ i → slotFails (slotClass f j) = false) →
      verifyMultiSuccess f = true) := by
  have hskip : ∀ g : File, slotMarker g i = slotMarker f i → slotClass g i = .skipped := by
    intro g hg
    rw [slotClass, if_pos (by rw [hg]; exact hm)]
  have hcls : slotClass f i = .skipped := hskip f rfl
  refine ⟨hcls, rfl, hskip, ?_⟩
  intro hothers
  rw [verifyMultiSuccess_iff]
  intro j hj
  by_cases hji : j = i
  · rw [hji, hcls]
    rfl
  · exact hothers j hj hji

/-- C7 witness: the zero-filled file, slot 3. -/
theorem claim_C7_sentinel_gating_witness :
    slotClass emptyFile 3 = SlotClass.skipped ∧ verifyMultiSuccess emptyFile = true := by
  have h := claim_C7_sentinel_gating emptyFile 3 (by decide) (by decide)
  refine ⟨h.1, h.2.2.2 ?_⟩
  intro j hj _
  have hcj := (claim_C7_sentinel_gating emptyFile j hj
    (by rw [show slotMarker emptyFile j = 0 from rfl]; decide)).1
  rw [hcj]
  rfl

/-- C8: Applying a barrier list invokes its members in exactly the
configured order (list concatenation maps to syscall-trace
concatenation, so in the list flush-mapping then full-flush the msync
calls come strictly before the F_FULLFSYNC call), and the flush-mapping
barrier issues no call at all - and no error - when the write path has
no mapping or the tracked length is zero. -/
theorem claim_C8_barrier_composition (w : WriterView) (l1 l2 : List Barrier) :
    applySyncList w (l1 ++ l2) = applySyncList w l1 ++ applySyncList w l2 ∧
    applySyncList w [.msyncB, .fullfsyncB] = syncCalls w .msyncB ++ [.fullfsyncCall] ∧
    (w.hasMapping = false → syncCalls w .msyncB = []) ∧
    (w.length = 0 → syncCalls w .msyncB = []) := by
  refine ⟨applySyncList_append w l1 l2, ?_, ?_, ?_⟩
  · simp [applySyncList, syncCalls]
  · intro h
    simp [syncCalls, h]
  · intro h
    simp [syncCalls, h]

/-- C8 witness: the positional write path (no mapping, length 0). -/
theorem claim_C8_barrier_composition_witness :
    applySyncList ⟨false, 0⟩ ([Barrier.msyncB] ++ [Barrier.fullfsyncB])
      = applySyncList ⟨false, 0⟩ [Barrier.msyncB]
        ++ applySyncList ⟨false, 0⟩ [Barrier.fullfsyncB] ∧
    syncCalls ⟨false, 0⟩ Barrier.msyncB = [] := by
  have h := claim_C8_barrier_composition ⟨false, 0⟩ [Barrier.msyncB] [Barrier.fullfsyncB]
  exact ⟨h.1, h.2.2.1 rfl⟩

/-- C9: The logical length after successive transactions is
non-decreasing in both policies, and every extend call either simulator
issues asks for at least the current tracked length, so the
truncate-style call never shrinks the file as invoked. -/
theorem claim_C9_never_truncates (ebs wbs : List Barrier) (i j n : Nat) (hij : i ≤ j) :
    (singleRunFile ebs wbs i).size ≤ (singleRunFile ebs wbs j).size ∧
    (multiRunFile ebs wbs i).size ≤ (multiRunFile ebs wbs j).size ∧
    extendsOk 0 (runTraceSingle ebs wbs n) = true ∧
    extendsOk 0 (runTraceMulti ebs wbs n) = true := by
  refine ⟨?_, ?_, (runSingle_props ebs wbs n).2.1, (runMulti_props ebs wbs n).2.1⟩
  · rw [singleRunFile_size, singleRunFile_size]
    by_cases hi0 : i = 0
    · simp [hi0]
    · rw [if_neg hi0, if_neg (by omega)]
      simp only [PAGE_SIZE]
      omega
  · rw [multiRunFile_size, multiRunFile_size]
    by_cases hi0 : i = 0
    · simp [hi0]
    · rw [if_neg hi0, if_neg (by omega)]
      simp only [PAGE_SIZE]
      omega

/-- C9 witness: transactions 1 and 2 of a 2-step run. -/
theorem claim_C9_never_truncates_witness :
    (singleRunFile [] [] 1).size ≤ (singleRunFile [] [] 2).size ∧
    (multiRunFile [] [] 1).size ≤ (multiRunFile [] [] 2).size ∧
    extendsOk 0 (runTraceSingle [] [] 2) = true ∧
    extendsOk 0 (runTraceMulti [] [] 2) = true :=
  claim_C9_never_truncates [] [] 1 2 2 (by decide)

/-- C10: Every write either simulator issues satisfies
offset + length <= tracked logical length at the moment of the call, the
bounds assertion of the mapped-buffer write path, so the memcpy stays
inside the mapping. -/
theorem claim_C10_writes_in_bounds (ebs wbs : List Barrier) (n : Nat) :
    writesOk 0 (runTraceSingle ebs wbs n) = true ∧
    writesOk 0 (runTraceMulti ebs wbs n) = true :=
  ⟨(runSingle_props ebs wbs n).2.2, (runMulti_props ebs wbs n).2.2⟩

end Durability
